import Mathlib

/-!
Shallow embedding of the walmart-project sustainability scripts
(`Packaging_Sustainability_Optimizer_Script.py`, `Lifecycle_Impact_Simulator_Script.py`,
`Regulatory_Compliance_Validator_Script.py`, `Sustainability_KPI_Tracker_Script.py`,
`Circularity_Metrics_Analyzer_Script.py`).

Numeric columns are modelled as exact rationals (`ℚ`).  Float division that the
source lets produce a non-finite value (NaN) is modelled with `Option ℚ`, where
`none` stands for the non-finite result.  Fallible operations are modelled with
`Except String`, carrying the source's error message.
-/

namespace Walmart

/-! ### Column validation

`_validate_data` in every script walks the list of required column names in
order and raises `ValueError(f"Missing required column: {col}")` at the first
name not among the table's columns; on success the method returns having read,
never written, the table. -/

/-- Embedding of `_validate_data`: check each required column in order against
the table's column list; fail at the first missing one with the script's
message prefix (`"Missing required column: "` in the optimizer, simulator and
tracker; `"Missing required column in data: "` and
`"Missing required column in regulations: "` in the validator), otherwise
return the table unchanged. -/
def validateData (msg : String) (cols : List String) (t : α) :
    List String → Except String α
  | [] => .ok t
  | c :: rest =>
    if c ∈ cols then validateData msg cols t rest
    else .error (msg ++ c)

/-! ### Regulatory Compliance Validator

`check_compliance` left-joins the data table to the regulations table on
`Requirement` and then labels each joined row
`'Compliant' if row['Status'] >= row['Threshold'] else 'Non-Compliant'`.
A data row with no matching regulation row gets a NaN `Threshold` from the
left join, and the pandas comparison `Status >= NaN` evaluates to `False`. -/

structure DataRow where
  entity : String
  requirement : String
  status : ℚ
  date : String
deriving DecidableEq

structure RegRow where
  requirement : String
  description : String
  threshold : ℚ
deriving DecidableEq

/-- The pandas comparison `Status >= Threshold` after a left join: against a
present threshold it is the ordinary `≥`; against a missing (NaN) threshold it
evaluates to `False`. -/
def geThreshold (status : ℚ) : Option ℚ → Bool
  | some t => decide (t ≤ status)
  | none => false

/-- Left join of data rows to regulation rows on `Requirement`
(`self.data.merge(self.regulations, on='Requirement', how='left')`): each data
row is paired with every matching regulation row, or with `none` when no
regulation row matches. -/
def mergeLeft (data : List DataRow) (regs : List RegRow) :
    List (DataRow × Option RegRow) :=
  data.flatMap fun r =>
    match regs.filter (fun g => g.requirement == r.requirement) with
    | [] => [(r, none)]
    | ms => ms.map fun m => (r, some m)

/-- Embedding of `RegulatoryComplianceValidator.check_compliance`: left-join
then label each row from the `Status >= Threshold` comparison. -/
def checkCompliance (data : List DataRow) (regs : List RegRow) :
    List (DataRow × Option RegRow × String) :=
  (mergeLeft data regs).map fun p =>
    (p.1, p.2,
      if geThreshold p.1.status (p.2.map RegRow.threshold) then "Compliant"
      else "Non-Compliant")

/-! ### Sustainability KPI Tracker -/

structure KpiRow where
  kpi : String
  target : ℚ
  actual : ℚ
  date : String
deriving DecidableEq

/-- Embedding of `SustainabilityKPITracker.calculate_performance`: add for each
row `Performance = Actual / Target * 100` and
`Status = 'On Track' if Performance >= 100 else 'Needs Improvement'`. -/
def calculatePerformance (rows : List KpiRow) : List (KpiRow × ℚ × String) :=
  rows.map fun r =>
    let p := r.actual / r.target * 100
    (r, p, if 100 ≤ p then "On Track" else "Needs Improvement")

/-! ### Min-max normalization

`normalize_columns` in the optimizer and the simulator replaces each value `v`
of a column by `(v - col.min()) / (col.max() - col.min())`.  The source guards
nothing: when the column is constant the denominator is zero and pandas
silently produces the non-finite value NaN for every row, modelled here as
`none`. -/

/-- Float division as the source executes it: a genuine quotient when the
denominator is nonzero, the non-finite result (`none`) when it is zero. -/
def fdiv (a b : ℚ) : Option ℚ :=
  if b = 0 then none else some (a / b)

/-- `pandas.Series.min` of a nonempty column. -/
def colMin : List ℚ → ℚ
  | [] => 0
  | x :: xs => xs.foldl min x

/-- `pandas.Series.max` of a nonempty column. -/
def colMax : List ℚ → ℚ
  | [] => 0
  | x :: xs => xs.foldl max x

/-- Embedding of one column of `normalize_columns`:
`(value - min) / (max - min)` for every value, with `none` for a non-finite
result. -/
def normalizeColumn (xs : List ℚ) : List (Option ℚ) :=
  xs.map fun v => fdiv (v - colMin xs) (colMax xs - colMin xs)

/-- `normalize_columns` as a pipeline step: the source method body contains no
`raise`, so the embedded computation always returns `.ok` with the (possibly
non-finite) normalized values. -/
def normalizeColumnRun (xs : List ℚ) : Except String (List (Option ℚ)) :=
  .ok (normalizeColumn xs)

/-! ### Ranking

The optimizer and the simulator finish with
`sorted(results, key=lambda x: x[1])`: Python's `sorted` is a stable ascending
sort on the score component.  The circularity analyzer's
`visualize_circularity` instead ranks with
`df.sort_values(by='circularity_score', ascending=False)`: a descending sort
on the score. -/

/-- The comparison behind `key=lambda x: x[1]` with ascending order. -/
def ascByScore (a b : String × ℚ) : Bool := decide (a.2 ≤ b.2)

/-- The comparison ranking the larger score first (`ascending=False`). -/
def descByScore (a b : String × ℚ) : Bool := decide (b.2 ≤ a.2)

/-- Python `sorted(results, key=lambda x: x[1])`: stable merge sort, ascending
on the score component. -/
def rankAscending (l : List (String × ℚ)) : List (String × ℚ) :=
  l.mergeSort ascByScore

/-- `df.sort_values(by='circularity_score', ascending=False)` in
`visualize_circularity`: sort descending on the score component. -/
def circRank (l : List (String × ℚ)) : List (String × ℚ) :=
  l.mergeSort descByScore

/-! ### Bounded minimization of the linear objectives

`optimize` and `simulate` call `scipy.optimize.minimize(objective_function, x0,
bounds=[(0, 1)] * 4)` per row.  The spec places the external solver out of
scope ("treated as a black-box function minimizer"), so the solver is modelled
from the spec by its contract: it returns the minimum value of the objective
over the closed unit box `[0,1]^4`, regardless of the starting point `x0`. -/

/-- A point of the 4-dimensional optimization domain. -/
structure Vec4 where
  a : ℚ
  b : ℚ
  c : ℚ
  d : ℚ
deriving DecidableEq

/-- Membership in the closed unit box `[0,1]^4`, the solver's `bounds`. -/
def inBox (v : Vec4) : Prop :=
  0 ≤ v.a ∧ v.a ≤ 1 ∧ 0 ≤ v.b ∧ v.b ≤ 1 ∧ 0 ≤ v.c ∧ v.c ≤ 1 ∧ 0 ≤ v.d ∧ v.d ≤ 1

/-- The optimizer's `objective_function`:
`weight_cost * x[0] + weight_recyclability * (1 - x[1]) +
 weight_carbon_footprint * x[2] + weight_durability * (1 - x[3])`. -/
def packObjective (wc wr wf wd : ℚ) (x : Vec4) : ℚ :=
  wc * x.a + wr * (1 - x.b) + wf * x.c + wd * (1 - x.d)

/-- The simulator's `objective_function`:
`weight_cost * x[0] + weight_carbon * x[1] + weight_water * x[2] +
 weight_energy * x[3]`. -/
def lifeObjective (wc wb ww we : ℚ) (x : Vec4) : ℚ :=
  wc * x.a + wb * x.b + ww * x.c + we * x.d

/-- `0` or `1` from a corner selector bit. -/
def bit (b : Bool) : ℚ := if b then 1 else 0

/-- A corner of the unit box, one selector bit per coordinate. -/
def cornerOf (b1 b2 b3 b4 : Bool) : Vec4 :=
  ⟨bit b1, bit b2, bit b3, bit b4⟩

/-- The box corner determined by the signs of the optimizer's weight terms:
a direct term `w * x` is minimized at `x = 0` when `0 ≤ w` and at `x = 1`
otherwise; an inverted term `w * (1 - x)` is minimized at `x = 1` when
`0 ≤ w` and at `x = 0` otherwise. -/
def packCorner (wc wr wf wd : ℚ) : Vec4 :=
  ⟨if wc < 0 then 1 else 0, if 0 ≤ wr then 1 else 0,
   if wf < 0 then 1 else 0, if 0 ≤ wd then 1 else 0⟩

/-- The box corner determined by the signs of the simulator's (all direct)
weight terms. -/
def lifeCorner (wc wb ww we : ℚ) : Vec4 :=
  ⟨if wc < 0 then 1 else 0, if wb < 0 then 1 else 0,
   if ww < 0 then 1 else 0, if we < 0 then 1 else 0⟩

/-- Modelled from the spec: the external numerical optimizer
(`scipy.optimize.minimize` with box bounds, out of scope for the source) is a
black-box function minimizer; its returned value `r` attains the minimum of the
objective over the closed unit box, convergence tolerance taken as exact. -/
def IsBoxMinimum (obj : Vec4 → ℚ) (r : ℚ) : Prop :=
  (∃ x, inBox x ∧ obj x = r) ∧ ∀ x, inBox x → r ≤ obj x

/-- The sixteen corners of the unit box. -/
def cornerList : List Vec4 :=
  [false, true].flatMap fun b1 =>
    [false, true].flatMap fun b2 =>
      [false, true].flatMap fun b3 =>
        [false, true].map fun b4 => cornerOf b1 b2 b3 b4

/-- Direct corner evaluation: the least objective value among the sixteen box
corners. -/
def cornersMin (obj : Vec4 → ℚ) : ℚ :=
  (cornerList.map obj).foldr min (obj (cornerOf false false false false))

/-! ### The optimizer pipeline -/

/-- A row of the packaging CSV. -/
structure PackRow where
  material : String
  cost : ℚ
  recyclability : ℚ
  carbon : ℚ
  durability : ℚ
deriving DecidableEq

/-- Modelled from the spec: the black-box solver call
`minimize(objective_function, x0, bounds=[(0, 1)] * 4)` on the optimizer's
objective.  Its value is the minimum of the linear objective over the closed
unit box, which is attained at `packCorner` for every starting point, so the
(possibly non-finite) normalized starting vector `x0` does not influence the
result. -/
def packSolve (wc wr wf wd : ℚ) (_x0 : Option ℚ × Option ℚ × Option ℚ × Option ℚ) : ℚ :=
  packObjective wc wr wf wd (packCorner wc wr wf wd)

/-- Embedding of `PackagingSustainabilityOptimizer.optimize`: normalize the
four numeric columns, run the (modelled) solver per row starting from the
row's normalized vector, and return the results stably sorted ascending by
score. -/
def optimize (data : List PackRow) (wc wr wf wd : ℚ) : List (String × ℚ) :=
  let cN := normalizeColumn (data.map PackRow.cost)
  let rN := normalizeColumn (data.map PackRow.recyclability)
  let fN := normalizeColumn (data.map PackRow.carbon)
  let dN := normalizeColumn (data.map PackRow.durability)
  let results := (data.zip (cN.zip (rN.zip (fN.zip dN)))).map fun p =>
    (p.1.material, packSolve wc wr wf wd p.2)
  rankAscending results

/-- The two-row example table from the spec's end-to-end test property. -/
def exampleData : List PackRow :=
  [⟨"A", 10, 0.2, 5, 0.8⟩, ⟨"B", 2, 0.9, 1, 0.3⟩]

/-! ### Stage ordering guards

`display_results`, `visualize_results` and `export_results` each start with
`if not hasattr(self, 'optimized_results'): raise ValueError(...)` (optimizer)
or the analogous check for `simulation_results` (simulator), before reading any
state or emitting any output. -/

/-- The optimizer object's state: the loaded table and, once `optimize` has
run, the `optimized_results` attribute. -/
structure OptimizerState where
  data : List PackRow
  optimized_results : Option (List (String × ℚ))

/-- A row of the lifecycle CSV. -/
structure LifeRow where
  stage : String
  cost : ℚ
  carbon : ℚ
  water : ℚ
  energy : ℚ
deriving DecidableEq

/-- The simulator object's state: the loaded table and, once `simulate` has
run, the `simulation_results` attribute. -/
structure SimulatorState where
  data : List LifeRow
  simulation_results : Option (List (String × ℚ))

/-- Embedding of the optimizer's `display_results`: guard on
`optimized_results`, then print the ranked pairs.  On success the state is
returned unchanged alongside the emitted pairs. -/
def displayResults (s : OptimizerState) :
    Except String (OptimizerState × List (String × ℚ)) :=
  match s.optimized_results with
  | none => .error "Run optimize() before displaying results."
  | some rs => .ok (s, rs)

/-- Embedding of the optimizer's `export_results`: guard on
`optimized_results`, then write the result rows. -/
def exportResults (s : OptimizerState) :
    Except String (OptimizerState × List (String × ℚ)) :=
  match s.optimized_results with
  | none => .error "Run optimize() before exporting results."
  | some rs => .ok (s, rs)

/-- Embedding of the optimizer's `visualize_results`: guard on
`optimized_results`, then chart the result rows. -/
def visualizeResults (s : OptimizerState) :
    Except String (OptimizerState × List (String × ℚ)) :=
  match s.optimized_results with
  | none => .error "Run optimize() before visualizing results."
  | some rs => .ok (s, rs)

/-- Embedding of the simulator's `display_results`: guard on
`simulation_results`. -/
def simDisplayResults (s : SimulatorState) :
    Except String (SimulatorState × List (String × ℚ)) :=
  match s.simulation_results with
  | none => .error "Run simulate() before displaying results."
  | some rs => .ok (s, rs)

/-- Embedding of the simulator's `visualize_results`: guard on
`simulation_results`. -/
def simVisualizeResults (s : SimulatorState) :
    Except String (SimulatorState × List (String × ℚ)) :=
  match s.simulation_results with
  | none => .error "Run simulate() before visualizing results."
  | some rs => .ok (s, rs)

/-- Embedding of the simulator's `export_results`: guard on
`simulation_results`. -/
def simExportResults (s : SimulatorState) :
    Except String (SimulatorState × List (String × ℚ)) :=
  match s.simulation_results with
  | none => .error "Run simulate() before exporting results."
  | some rs => .ok (s, rs)

/-! ## Supporting lemmas -/

theorem validateData_ok_of_all_present {msg : String} {cols : List String} (t : α) :
    ∀ {req : List String}, (∀ c ∈ req, c ∈ cols) →
      validateData msg cols t req = .ok t
  | [], _ => rfl
  | c :: rest, h => by
    have hc : c ∈ cols := h c (List.mem_cons_self c rest)
    simp only [validateData, if_pos hc]
    exact validateData_ok_of_all_present t fun d hd => h d (List.mem_cons_of_mem c hd)

theorem validateData_error_names_missing {msg : String} {cols : List String} (t : α) :
    ∀ {req : List String} {e : String}, validateData msg cols t req = .error e →
      ∃ c, c ∈ req ∧ c ∉ cols ∧ e = msg ++ c
  | [], _, h => by simp [validateData] at h
  | c :: rest, e, h => by
    by_cases hc : c ∈ cols
    · simp only [validateData, if_pos hc] at h
      obtain ⟨d, hd, hdc, hde⟩ := validateData_error_names_missing t h
      exact ⟨d, List.mem_cons_of_mem c hd, hdc, hde⟩
    · simp only [validateData, if_neg hc, Except.error.injEq] at h
      exact ⟨c, List.mem_cons_self c rest, hc, h.symm⟩

theorem validateData_not_ok_of_missing {msg : String} {cols : List String} (t : α) :
    ∀ {req : List String}, (∃ c ∈ req, c ∉ cols) →
      ∃ e, validateData msg cols t req = .error e
  | [], h => by simp at h
  | c :: rest, h => by
    by_cases hc : c ∈ cols
    · simp only [validateData, if_pos hc]
      obtain ⟨d, hd, hdc⟩ := h
      rcases List.mem_cons.mp hd with rfl | hd'
      · exact absurd hc hdc
      · exact validateData_not_ok_of_missing t ⟨d, hd', hdc⟩
    · exact ⟨msg ++ c, by simp only [validateData, if_neg hc]⟩

theorem foldl_min_le_start : ∀ (xs : List ℚ) (a : ℚ), xs.foldl min a ≤ a
  | [], _ => le_refl _
  | x :: xs, a =>
    le_trans (foldl_min_le_start xs (min a x)) (min_le_left a x)

theorem start_le_foldl_max : ∀ (xs : List ℚ) (a : ℚ), a ≤ xs.foldl max a
  | [], _ => le_refl _
  | x :: xs, a =>
    le_trans (le_max_left a x) (start_le_foldl_max xs (max a x))

theorem colMin_le_colMax (x : ℚ) (xs : List ℚ) :
    colMin (x :: xs) ≤ colMax (x :: xs) :=
  le_trans (foldl_min_le_start xs x) (start_le_foldl_max xs x)

theorem foldl_min_map_comm (f : ℚ → ℚ)
    (hf : ∀ a b : ℚ, f (min a b) = min (f a) (f b)) :
    ∀ (xs : List ℚ) (a : ℚ), (xs.map f).foldl min (f a) = f (xs.foldl min a)
  | [], _ => rfl
  | x :: xs, a => by
    simp only [List.map_cons, List.foldl_cons, ← hf a x]
    exact foldl_min_map_comm f hf xs (min a x)

theorem foldl_max_map_comm (f : ℚ → ℚ)
    (hf : ∀ a b : ℚ, f (max a b) = max (f a) (f b)) :
    ∀ (xs : List ℚ) (a : ℚ), (xs.map f).foldl max (f a) = f (xs.foldl max a)
  | [], _ => rfl
  | x :: xs, a => by
    simp only [List.map_cons, List.foldl_cons, ← hf a x]
    exact foldl_max_map_comm f hf xs (max a x)

theorem colMin_map_comm (f : ℚ → ℚ)
    (hf : ∀ a b : ℚ, f (min a b) = min (f a) (f b))
    (x : ℚ) (xs : List ℚ) : colMin ((x :: xs).map f) = f (colMin (x :: xs)) := by
  simpa [colMin] using foldl_min_map_comm f hf xs x

theorem colMax_map_comm (f : ℚ → ℚ)
    (hf : ∀ a b : ℚ, f (max a b) = max (f a) (f b))
    (x : ℚ) (xs : List ℚ) : colMax ((x :: xs).map f) = f (colMax (x :: xs)) := by
  simpa [colMax] using foldl_max_map_comm f hf xs x

theorem ascByScore_trans (a b c : String × ℚ) :
    ascByScore a b → ascByScore b c → ascByScore a c := fun hab hbc =>
  decide_eq_true (le_trans (of_decide_eq_true hab) (of_decide_eq_true hbc))

theorem ascByScore_total (a b : String × ℚ) : ascByScore a b || ascByScore b a := by
  simp only [ascByScore, Bool.or_eq_true, decide_eq_true_eq]
  exact le_total _ _

theorem descByScore_trans (a b c : String × ℚ) :
    descByScore a b → descByScore b c → descByScore a c := fun hab hbc =>
  decide_eq_true (le_trans (of_decide_eq_true hbc) (of_decide_eq_true hab))

theorem descByScore_total (a b : String × ℚ) :
    descByScore a b || descByScore b a := by
  simp only [descByScore, Bool.or_eq_true, decide_eq_true_eq]
  exact le_total _ _

theorem foldr_min_le_init (i : ℚ) : ∀ l : List ℚ, l.foldr min i ≤ i
  | [] => le_refl i
  | x :: l => le_trans (min_le_right x _) (foldr_min_le_init i l)

theorem foldr_min_le_mem (i : ℚ) :
    ∀ {l : List ℚ} {x : ℚ}, x ∈ l → l.foldr min i ≤ x := by
  intro l
  induction l with
  | nil => intro x hx; cases hx
  | cons y l ih =>
    intro x hx
    rcases List.mem_cons.mp hx with rfl | hx'
    · exact min_le_left _ _
    · exact le_trans (min_le_right _ _) (ih hx')

theorem foldr_min_attained (i : ℚ) :
    ∀ l : List ℚ, l.foldr min i = i ∨ l.foldr min i ∈ l
  | [] => Or.inl rfl
  | x :: l => by
    have hf : (x :: l).foldr min i = min x (l.foldr min i) := rfl
    rcases min_choice x (l.foldr min i) with h | h
    · rw [hf, h]; exact Or.inr (List.mem_cons_self x l)
    · rw [hf, h]
      rcases foldr_min_attained i l with h' | h'
      · exact Or.inl h'
      · exact Or.inr (List.mem_cons_of_mem x h')

theorem cornerOf_mem_cornerList (b1 b2 b3 b4 : Bool) :
    cornerOf b1 b2 b3 b4 ∈ cornerList := by
  cases b1 <;> cases b2 <;> cases b3 <;> cases b4 <;>
    simp [cornerList, List.mem_flatMap, List.mem_map]

theorem mem_cornerList_iff {v : Vec4} (h : v ∈ cornerList) :
    ∃ b1 b2 b3 b4, v = cornerOf b1 b2 b3 b4 := by
  simp only [cornerList, List.mem_flatMap, List.mem_map] at h
  obtain ⟨b1, -, b2, -, b3, -, b4, -, rfl⟩ := h
  exact ⟨b1, b2, b3, b4, rfl⟩

theorem cornerOf_inBox (b1 b2 b3 b4 : Bool) : inBox (cornerOf b1 b2 b3 b4) := by
  cases b1 <;> cases b2 <;> cases b3 <;> cases b4 <;>
    refine ⟨?_, ?_, ?_, ?_, ?_, ?_, ?_, ?_⟩ <;> norm_num [cornerOf, bit]

theorem directTerm_min (w v : ℚ) (h0 : 0 ≤ v) (h1 : v ≤ 1) :
    w * (if w < 0 then (1 : ℚ) else 0) ≤ w * v := by
  by_cases hw : w < 0
  · rw [if_pos hw]; nlinarith
  · rw [if_neg hw]; push_neg at hw; nlinarith

theorem invTerm_min (w v : ℚ) (h0 : 0 ≤ v) (h1 : v ≤ 1) :
    w * (1 - (if 0 ≤ w then (1 : ℚ) else 0)) ≤ w * (1 - v) := by
  by_cases hw : 0 ≤ w
  · rw [if_pos hw]; nlinarith
  · rw [if_neg hw]; push_neg at hw; nlinarith

theorem packCorner_inBox (wc wr wf wd : ℚ) : inBox (packCorner wc wr wf wd) := by
  refine ⟨?_, ?_, ?_, ?_, ?_, ?_, ?_, ?_⟩ <;> simp only [packCorner] <;>
    split <;> norm_num

theorem lifeCorner_inBox (wc wb ww we : ℚ) : inBox (lifeCorner wc wb ww we) := by
  refine ⟨?_, ?_, ?_, ?_, ?_, ?_, ?_, ?_⟩ <;> simp only [lifeCorner] <;>
    split <;> norm_num

theorem packCorner_min (wc wr wf wd : ℚ) {x : Vec4} (hx : inBox x) :
    packObjective wc wr wf wd (packCorner wc wr wf wd) ≤
      packObjective wc wr wf wd x := by
  obtain ⟨ha0, ha1, hb0, hb1, hc0, hc1, hd0, hd1⟩ := hx
  have t1 := directTerm_min wc x.a ha0 ha1
  have t2 := invTerm_min wr x.b hb0 hb1
  have t3 := directTerm_min wf x.c hc0 hc1
  have t4 := invTerm_min wd x.d hd0 hd1
  simp only [packObjective, packCorner]
  exact add_le_add (add_le_add (add_le_add t1 t2) t3) t4

theorem lifeCorner_min (wc wb ww we : ℚ) {x : Vec4} (hx : inBox x) :
    lifeObjective wc wb ww we (lifeCorner wc wb ww we) ≤
      lifeObjective wc wb ww we x := by
  obtain ⟨ha0, ha1, hb0, hb1, hc0, hc1, hd0, hd1⟩ := hx
  have t1 := directTerm_min wc x.a ha0 ha1
  have t2 := directTerm_min wb x.b hb0 hb1
  have t3 := directTerm_min ww x.c hc0 hc1
  have t4 := directTerm_min we x.d hd0 hd1
  simp only [lifeObjective, lifeCorner]
  exact add_le_add (add_le_add (add_le_add t1 t2) t3) t4

theorem packCorner_eq_cornerOf (wc wr wf wd : ℚ) :
    packCorner wc wr wf wd =
      cornerOf (decide (wc < 0)) (decide (0 ≤ wr)) (decide (wf < 0))
        (decide (0 ≤ wd)) := by
  by_cases h1 : wc < 0 <;> by_cases h2 : 0 ≤ wr <;> by_cases h3 : wf < 0 <;>
    by_cases h4 : 0 ≤ wd <;> simp [packCorner, cornerOf, bit, h1, h2, h3, h4]

theorem lifeCorner_eq_cornerOf (wc wb ww we : ℚ) :
    lifeCorner wc wb ww we =
      cornerOf (decide (wc < 0)) (decide (wb < 0)) (decide (ww < 0))
        (decide (we < 0)) := by
  by_cases h1 : wc < 0 <;> by_cases h2 : wb < 0 <;> by_cases h3 : ww < 0 <;>
    by_cases h4 : we < 0 <;> simp [lifeCorner, cornerOf, bit, h1, h2, h3, h4]

theorem packCorner_isBoxMinimum (wc wr wf wd : ℚ) :
    IsBoxMinimum (packObjective wc wr wf wd)
      (packObjective wc wr wf wd (packCorner wc wr wf wd)) :=
  ⟨⟨packCorner wc wr wf wd, packCorner_inBox wc wr wf wd, rfl⟩,
   fun _ hx => packCorner_min wc wr wf wd hx⟩

theorem lifeCorner_isBoxMinimum (wc wb ww we : ℚ) :
    IsBoxMinimum (lifeObjective wc wb ww we)
      (lifeObjective wc wb ww we (lifeCorner wc wb ww we)) :=
  ⟨⟨lifeCorner wc wb ww we, lifeCorner_inBox wc wb ww we, rfl⟩,
   fun _ hx => lifeCorner_min wc wb ww we hx⟩

theorem isBoxMinimum_unique {obj : Vec4 → ℚ} {r s : ℚ}
    (hr : IsBoxMinimum obj r) (hs : IsBoxMinimum obj s) : r = s := by
  obtain ⟨⟨x, hx, hxr⟩, hrle⟩ := hr
  obtain ⟨⟨y, hy, hys⟩, hsle⟩ := hs
  exact le_antisymm (hys ▸ hrle y hy) (hxr ▸ hsle x hx)

theorem cornersMin_isBoxMinimum_of_corner_min {obj : Vec4 → ℚ} {v : Vec4}
    (hv : ∃ b1 b2 b3 b4, v = cornerOf b1 b2 b3 b4)
    (hmin : ∀ x, inBox x → obj v ≤ obj x) :
    cornersMin obj = obj v := by
  obtain ⟨b1, b2, b3, b4, rfl⟩ := hv
  refine le_antisymm ?_ ?_
  · exact foldr_min_le_mem _ (List.mem_map_of_mem obj
      (cornerOf_mem_cornerList b1 b2 b3 b4))
  · rcases foldr_min_attained (obj (cornerOf false false false false))
        (cornerList.map obj) with h | h
    · rw [cornersMin, h]
      exact hmin _ (cornerOf_inBox false false false false)
    · obtain ⟨w, hw, hwv⟩ := List.mem_map.mp h
      obtain ⟨c1, c2, c3, c4, rfl⟩ := mem_cornerList_iff hw
      rw [cornersMin, ← hwv]
      exact hmin _ (cornerOf_inBox c1 c2 c3 c4)

/-! ## Claim theorems -/

/-- C4: `validate` fails with a missing-column error naming an absent required
column if and only if at least one name in `required_columns` is not a column
of the input table; when every required column is present it returns without
error and leaves the table unchanged. -/
theorem validate_missing_column (msg : String) (cols req : List String) (t : α) :
    ((∀ c ∈ req, c ∈ cols) → validateData msg cols t req = .ok t) ∧
    ((∃ c ∈ req, c ∉ cols) → ∃ e, validateData msg cols t req = .error e) ∧
    (∀ e, validateData msg cols t req = .error e →
      ∃ c, c ∈ req ∧ c ∉ cols ∧ e = msg ++ c) :=
  ⟨validateData_ok_of_all_present t, validateData_not_ok_of_missing t,
   fun _ h => validateData_error_names_missing t h⟩

/-- Witness for C4: with all of the optimizer's required columns present,
validation returns the table unchanged; with `Recyclability` absent it fails
with the error naming it. -/
theorem validate_missing_column_witness :
    validateData "Missing required column: "
        ["Material", "Cost_per_unit", "Recyclability", "Carbon_Footprint", "Durability"]
        (0 : ℕ) ["Material", "Recyclability"] = .ok 0 ∧
    ∃ e, validateData "Missing required column: "
        ["Material", "Cost_per_unit", "Carbon_Footprint", "Durability"]
        (0 : ℕ) ["Material", "Recyclability"] = .error e :=
  ⟨(validate_missing_column _ _ _ _).1 (by decide),
   (validate_missing_column _ _ _ _).2.1 ⟨"Recyclability", by decide, by decide⟩⟩

/-- C9: invoking `display_results`, `visualize_results` or `export_results`
before the prerequisite scoring stage (`optimize` / `simulate`) has run fails
with the sequence-error message of the source, at the start of the operation:
the error carries no output and the state is untouched. -/
theorem stage_guard (s : OptimizerState) (t : SimulatorState)
    (hs : s.optimized_results = none) (ht : t.simulation_results = none) :
    displayResults s = .error "Run optimize() before displaying results." ∧
    exportResults s = .error "Run optimize() before exporting results." ∧
    visualizeResults s = .error "Run optimize() before visualizing results." ∧
    simDisplayResults t = .error "Run simulate() before displaying results." ∧
    simVisualizeResults t = .error "Run simulate() before visualizing results." ∧
    simExportResults t = .error "Run simulate() before exporting results." := by
  refine ⟨?_, ?_, ?_, ?_, ?_, ?_⟩ <;>
    simp [displayResults, exportResults, visualizeResults, simDisplayResults,
      simVisualizeResults, simExportResults, hs, ht]

/-- Witness for C9: on freshly loaded (unscored) states every later-stage
method fails with its sequence error. -/
theorem stage_guard_witness :
    displayResults ⟨[], none⟩ = .error "Run optimize() before displaying results." ∧
    exportResults ⟨[], none⟩ = .error "Run optimize() before exporting results." ∧
    visualizeResults ⟨[], none⟩ = .error "Run optimize() before visualizing results." ∧
    simDisplayResults ⟨[], none⟩ = .error "Run simulate() before displaying results." ∧
    simVisualizeResults ⟨[], none⟩ = .error "Run simulate() before visualizing results." ∧
    simExportResults ⟨[], none⟩ = .error "Run simulate() before exporting results." :=
  stage_guard ⟨[], none⟩ ⟨[], none⟩ rfl rfl

/-- C6: in `check_compliance`, a joined row whose `Status` equals its
`Threshold` is labelled `Compliant` (the boundary is inclusive), and a joined
row whose `Status` is strictly below its `Threshold` is labelled
`Non-Compliant`. -/
theorem compliance_boundary (data : List DataRow) (regs : List RegRow)
    (r : DataRow) (g : RegRow) (lbl : String)
    (hmem : (r, some g, lbl) ∈ checkCompliance data regs) :
    (r.status = g.threshold → lbl = "Compliant") ∧
    (r.status < g.threshold → lbl = "Non-Compliant") := by
  obtain ⟨⟨q, m⟩, _, heq⟩ := List.mem_map.mp hmem
  obtain ⟨h1, h2, h3⟩ : q = r ∧ m = some g ∧
      (if geThreshold q.status (m.map RegRow.threshold) then "Compliant"
       else "Non-Compliant") = lbl := by
    simpa [Prod.ext_iff] using heq
  subst h1 h2
  constructor
  · intro hst
    rw [← h3]
    simp [geThreshold, hst]
  · intro hst
    rw [← h3]
    simp [geThreshold, not_le.mpr hst]

/-- Witness for C6: with threshold 5, status 5 is labelled `Compliant` and
status 4 is labelled `Non-Compliant`. -/
theorem compliance_boundary_witness :
    ((⟨"E", "R1", 5, "d"⟩ : DataRow), some (⟨"R1", "desc", 5⟩ : RegRow), "Compliant") ∈
      checkCompliance [⟨"E", "R1", 5, "d"⟩, ⟨"F", "R1", 4, "d"⟩] [⟨"R1", "desc", 5⟩] ∧
    "Compliant" = "Compliant" ∧ "Non-Compliant" = "Non-Compliant" :=
  ⟨by decide,
   (compliance_boundary [⟨"E", "R1", 5, "d"⟩, ⟨"F", "R1", 4, "d"⟩] [⟨"R1", "desc", 5⟩]
      ⟨"E", "R1", 5, "d"⟩ ⟨"R1", "desc", 5⟩ "Compliant" (by decide)).1 rfl,
   (compliance_boundary [⟨"E", "R1", 5, "d"⟩, ⟨"F", "R1", 4, "d"⟩] [⟨"R1", "desc", 5⟩]
      ⟨"F", "R1", 4, "d"⟩ ⟨"R1", "desc", 5⟩ "Non-Compliant" (by decide)).2 (by norm_num)⟩

/-- C10: a data row whose `Requirement` matches no regulation row receives a
missing `Threshold` from the left join and is labelled `Non-Compliant`,
because the `Status >= Threshold` comparison evaluates false against a missing
threshold. -/
theorem unmatched_noncompliant (data : List DataRow) (regs : List RegRow)
    (r : DataRow) (hr : r ∈ data)
    (hnone : ∀ g ∈ regs, g.requirement ≠ r.requirement) :
    (r, (none : Option RegRow), "Non-Compliant") ∈ checkCompliance data regs ∧
    geThreshold r.status none = false := by
  refine ⟨?_, rfl⟩
  have hfil : regs.filter (fun g => g.requirement == r.requirement) = [] := by
    rw [List.filter_eq_nil_iff]
    intro g hg
    simpa using hnone g hg
  have hmerge : (r, (none : Option RegRow)) ∈ mergeLeft data regs := by
    apply List.mem_flatMap.mpr
    exact ⟨r, hr, by rw [hfil]; exact List.mem_singleton.mpr rfl⟩
  exact List.mem_map.mpr ⟨(r, none), hmerge, rfl⟩

/-- Witness for C10: a data row requiring `R9`, absent from the regulations,
comes out of the join with no threshold and the label `Non-Compliant`. -/
theorem unmatched_noncompliant_witness :
    ((⟨"E", "R9", 5, "d"⟩ : DataRow), (none : Option RegRow), "Non-Compliant") ∈
      checkCompliance [⟨"E", "R9", 5, "d"⟩] [⟨"R1", "desc", 5⟩] ∧
    geThreshold (5 : ℚ) none = false :=
  unmatched_noncompliant [⟨"E", "R9", 5, "d"⟩] [⟨"R1", "desc", 5⟩]
    ⟨"E", "R9", 5, "d"⟩ (by decide) (by decide)

/-- C7: `calculate_performance` sets, for every row with a nonzero target,
`Performance = Actual / Target * 100`, and sets `Status` to `On Track` exactly
when `Performance >= 100` and to `Needs Improvement` otherwise. -/
theorem kpi_performance (rows : List KpiRow) (r : KpiRow) (p : ℚ) (st : String)
    (hmem : (r, p, st) ∈ calculatePerformance rows) (ht : r.target ≠ 0) :
    p = r.actual / r.target * 100 ∧
    (st = "On Track" ↔ 100 ≤ p) ∧
    (st = "Needs Improvement" ↔ ¬ 100 ≤ p) := by
  obtain ⟨q, _, heq⟩ := List.mem_map.mp hmem
  obtain ⟨h1, h2, h3⟩ : q = r ∧ q.actual / q.target * 100 = p ∧
      (if 100 ≤ q.actual / q.target * 100 then "On Track"
       else "Needs Improvement") = st := by
    simpa [Prod.ext_iff] using heq
  subst h1
  refine ⟨h2.symm, ?_, ?_⟩ <;> rw [← h3, ← h2] <;> by_cases hp : 100 ≤ p
  · simp [h2, hp]
  · simp only [h2, if_neg hp]
    exact ⟨fun h => absurd h (by decide), fun h => absurd h hp⟩
  · simp only [h2, if_pos hp]
    exact ⟨fun h => absurd h.symm (by decide), fun h => absurd hp h⟩
  · simp [h2, hp]

/-- Witness for C7: actual 3 against target 2 gives performance 150 and the
label `On Track`. -/
theorem kpi_performance_witness :
    ((⟨"K", 2, 3, "d"⟩ : KpiRow), (150 : ℚ), "On Track") ∈
        calculatePerformance [⟨"K", 2, 3, "d"⟩] ∧
    (150 : ℚ) = 3 / 2 * 100 ∧ ("On Track" = "On Track" ↔ (100 : ℚ) ≤ 150) := by
  have hmem : ((⟨"K", 2, 3, "d"⟩ : KpiRow), (150 : ℚ), "On Track") ∈
      calculatePerformance [⟨"K", 2, 3, "d"⟩] := by
    norm_num [calculatePerformance]
  have h := kpi_performance [⟨"K", 2, 3, "d"⟩] ⟨"K", 2, 3, "d"⟩ 150 "On Track" hmem
    (by norm_num)
  exact ⟨hmem, h.1, h.2.1⟩

/-- C2: for every nonempty column whose values are not all equal, the
normalized values are all finite and have minimum exactly `0` and maximum
exactly `1` across the column. -/
theorem normalize_unit_range (x : ℚ) (xs : List ℚ)
    (hne : colMin (x :: xs) ≠ colMax (x :: xs)) :
    ∃ ys : List ℚ, normalizeColumn (x :: xs) = ys.map some ∧
      colMin ys = 0 ∧ colMax ys = 1 := by
  set mn := colMin (x :: xs) with hmn
  set mx := colMax (x :: xs) with hmx
  have hlt : mn < mx := lt_of_le_of_ne (colMin_le_colMax x xs) hne
  have hdpos : 0 < mx - mn := by linarith
  have hdne : mx - mn ≠ 0 := ne_of_gt hdpos
  set f : ℚ → ℚ := fun v => (v - mn) / (mx - mn) with hfdef
  have hmono : ∀ a b : ℚ, a ≤ b → f a ≤ f b := by
    intro a b h
    exact (div_le_div_iff_of_pos_right hdpos).mpr (by linarith)
  have hfmin : ∀ a b : ℚ, f (min a b) = min (f a) (f b) := by
    intro a b
    rcases le_total a b with h | h
    · rw [min_eq_left h, min_eq_left (hmono a b h)]
    · rw [min_eq_right h, min_eq_right (hmono b a h)]
  have hfmax : ∀ a b : ℚ, f (max a b) = max (f a) (f b) := by
    intro a b
    rcases le_total a b with h | h
    · rw [max_eq_right h, max_eq_right (hmono a b h)]
    · rw [max_eq_left h, max_eq_left (hmono b a h)]
  refine ⟨(x :: xs).map f, ?_, ?_, ?_⟩
  · simp only [normalizeColumn, ← hmn, ← hmx, fdiv, if_neg hdne, List.map_map]
    rfl
  · rw [colMin_map_comm f hfmin]
    show f mn = 0
    simp [hfdef]
  · rw [colMax_map_comm f hfmax]
    show f mx = 1
    simp only [hfdef]
    exact div_self hdne

/-- Witness for C2: the column `[10, 2]` is non-degenerate, and its
normalization has minimum 0 and maximum 1. -/
theorem normalize_unit_range_witness :
    colMin [(10 : ℚ), 2] ≠ colMax [(10 : ℚ), 2] ∧
    ∃ ys : List ℚ, normalizeColumn [(10 : ℚ), 2] = ys.map some ∧
      colMin ys = 0 ∧ colMax ys = 1 :=
  ⟨by decide, normalize_unit_range 10 [2] (by decide)⟩

/-- C5 counterexample: on the constant column `[5, 5]` (max = min) the
embedded `normalize_columns` does not fail: it returns normally, assigning
every row the non-finite value produced by the zero-width division, refuting
the claim that a degenerate column makes `normalize` fail with a
`DegenerateColumnError`. -/
theorem normalize_degenerate_cex :
    normalizeColumnRun [(5 : ℚ), 5] = .ok [none, none] := by
  norm_num [normalizeColumnRun, normalizeColumn, colMin, colMax, fdiv]

/-- C5 (amended): whenever a normalized column is degenerate (max = min),
`normalize_columns` completes without error and silently produces the
non-finite value NaN (modelled `none`) for every row. -/
theorem normalize_degenerate_silent (xs : List ℚ)
    (h : colMin xs = colMax xs) :
    normalizeColumnRun xs = .ok (xs.map fun _ => none) := by
  have h0 : colMax xs - colMin xs = 0 := by rw [h, sub_self]
  simp [normalizeColumnRun, normalizeColumn, fdiv, h0]

/-- Witness for C5: the constant column `[5, 5]` is degenerate and comes out
as a full-length list of non-finite values, with no error raised. -/
theorem normalize_degenerate_silent_witness :
    colMin [(5 : ℚ), 5] = colMax [(5 : ℚ), 5] ∧
    normalizeColumnRun [(5 : ℚ), 5] = .ok ([(5 : ℚ), 5].map fun _ => none) :=
  ⟨by decide, normalize_degenerate_silent [5, 5] (by decide)⟩

/-- C3 counterexample: on the input `[("A", 1), ("B", 2)]` the circularity
analyzer's ranking is `[("B", 2), ("A", 1)]`, which is not sorted ascending by
score — refuting the claim that every script of the family ranks ascending
with lower score first. -/
theorem circ_rank_descending_cex :
    circRank [("A", (1 : ℚ)), ("B", 2)] = [("B", 2), ("A", 1)] ∧
    ¬ (circRank [("A", (1 : ℚ)), ("B", 2)]).Pairwise fun a b => a.2 ≤ b.2 := by
  have heq : circRank [("A", (1 : ℚ)), ("B", 2)] = [("B", 2), ("A", 1)] := by
    have hanti : ∀ a b : String × ℚ, a ∈ circRank [("A", (1 : ℚ)), ("B", 2)] →
        b ∈ [(("B" : String), (2 : ℚ)), ("A", 1)] →
        b.2 ≤ a.2 → a.2 ≤ b.2 → a = b := by
      intro a b ha hb h1 h2
      rw [circRank, List.mem_mergeSort] at ha
      simp only [List.mem_cons, List.not_mem_nil, or_false] at ha hb
      rcases ha with rfl | rfl <;> rcases hb with rfl | rfl <;>
        first
        | rfl
        | (exfalso; revert h1 h2; norm_num)
    exact List.Perm.eq_of_sorted hanti
      ((List.sorted_mergeSort descByScore_trans descByScore_total _).imp
        fun h => of_decide_eq_true h)
      (by norm_num [List.pairwise_cons])
      ((List.mergeSort_perm _ _).trans (List.Perm.swap _ _ _))
  refine ⟨heq, ?_⟩
  rw [heq]
  intro h
  have := List.rel_of_pairwise_cons h (List.mem_cons_self _ _)
  norm_num at this

/-- C3 (amended): the optimizer's and simulator's ranked output is sorted
ascending by score, is a permutation of the scored input, and is stable (for
every score, the records at that score keep their original relative order);
the circularity analyzer instead ranks descending by score (there, higher
circularity score is better). -/
theorem rank_sorted_stable (l : List (String × ℚ)) :
    ((rankAscending l).Pairwise fun a b => a.2 ≤ b.2) ∧
    (rankAscending l).Perm l ∧
    (∀ s : ℚ, (rankAscending l).filter (fun p => decide (p.2 = s)) =
      l.filter fun p => decide (p.2 = s)) ∧
    ((circRank l).Pairwise fun a b => b.2 ≤ a.2) := by
  refine ⟨?_, ?_, ?_, ?_⟩
  · exact (List.sorted_mergeSort ascByScore_trans ascByScore_total l).imp
      fun h => of_decide_eq_true h
  · exact List.mergeSort_perm l ascByScore
  · intro s
    set p : String × ℚ → Bool := fun q => decide (q.2 = s) with hp
    have hself : (l.filter p).filter p = l.filter p :=
      List.filter_eq_self.mpr fun a ha => (List.mem_filter.mp ha).2
    have hsub : List.Sublist (l.filter p) (rankAscending l) := by
      apply List.sublist_mergeSort ascByScore_trans ascByScore_total
      · apply List.pairwise_of_forall_mem_list
        intro a ha b hb
        have ha' : a.2 = s := of_decide_eq_true (List.mem_filter.mp ha).2
        have hb' : b.2 = s := of_decide_eq_true (List.mem_filter.mp hb).2
        exact decide_eq_true (le_of_eq (ha'.trans hb'.symm))
      · exact List.filter_sublist l
    have hsub2 : List.Sublist (l.filter p) ((rankAscending l).filter p) := by
      have h := hsub.filter p
      rwa [hself] at h
    have hperm : ((rankAscending l).filter p).Perm (l.filter p) :=
      (List.mergeSort_perm l ascByScore).filter p
    exact (hsub2.eq_of_length hperm.length_eq.symm).symm
  · exact (List.sorted_mergeSort descByScore_trans descByScore_total l).imp
      fun h => of_decide_eq_true h

/-- C1: any solver conforming to the black-box minimizer contract returns, for
every in-box starting point, the value of the linear objective at the box
corner determined by the signs of the weight terms — independent of the row's
normalized starting vector — and direct evaluation of the 16 box corners
yields the same score, for both the optimizer's and the simulator's
objectives. -/
theorem solver_corner_value (wc wr wf wd lc lb lw lg : ℚ)
    (solveP solveL : Vec4 → ℚ)
    (hP : ∀ x0, inBox x0 → IsBoxMinimum (packObjective wc wr wf wd) (solveP x0))
    (hL : ∀ x0, inBox x0 → IsBoxMinimum (lifeObjective lc lb lw lg) (solveL x0)) :
    (∀ x0, inBox x0 →
      solveP x0 = packObjective wc wr wf wd (packCorner wc wr wf wd)) ∧
    (∀ x0 y0, inBox x0 → inBox y0 → solveP x0 = solveP y0) ∧
    cornersMin (packObjective wc wr wf wd) =
      packObjective wc wr wf wd (packCorner wc wr wf wd) ∧
    (∀ x0, inBox x0 →
      solveL x0 = lifeObjective lc lb lw lg (lifeCorner lc lb lw lg)) ∧
    (∀ x0 y0, inBox x0 → inBox y0 → solveL x0 = solveL y0) ∧
    cornersMin (lifeObjective lc lb lw lg) =
      lifeObjective lc lb lw lg (lifeCorner lc lb lw lg) := by
  have hPval : ∀ x0, inBox x0 →
      solveP x0 = packObjective wc wr wf wd (packCorner wc wr wf wd) :=
    fun x0 hx0 =>
      isBoxMinimum_unique (hP x0 hx0) (packCorner_isBoxMinimum wc wr wf wd)
  have hLval : ∀ x0, inBox x0 →
      solveL x0 = lifeObjective lc lb lw lg (lifeCorner lc lb lw lg) :=
    fun x0 hx0 =>
      isBoxMinimum_unique (hL x0 hx0) (lifeCorner_isBoxMinimum lc lb lw lg)
  refine ⟨hPval, fun x0 y0 hx hy => (hPval x0 hx).trans (hPval y0 hy).symm,
    cornersMin_isBoxMinimum_of_corner_min
      ⟨_, _, _, _, packCorner_eq_cornerOf wc wr wf wd⟩
      (fun x hx => packCorner_min wc wr wf wd hx),
    hLval, fun x0 y0 hx hy => (hLval x0 hx).trans (hLval y0 hy).symm,
    cornersMin_isBoxMinimum_of_corner_min
      ⟨_, _, _, _, lifeCorner_eq_cornerOf lc lb lw lg⟩
      (fun x hx => lifeCorner_min lc lb lw lg hx)⟩

/-- Witness for C1: with the scripts' default weights and the exact
corner-minimizing solver, the solver value at a concrete in-box start equals
the corner value, and the direct 16-corner evaluation agrees for the
simulator's objective. -/
theorem solver_corner_value_witness :
    (fun _ : Vec4 => packObjective 0.3 0.4 0.2 0.1 (packCorner 0.3 0.4 0.2 0.1))
        (cornerOf false false false false) =
      packObjective 0.3 0.4 0.2 0.1 (packCorner 0.3 0.4 0.2 0.1) ∧
    cornersMin (lifeObjective 0.3 0.3 0.2 0.2) =
      lifeObjective 0.3 0.3 0.2 0.2 (lifeCorner 0.3 0.3 0.2 0.2) := by
  have h := solver_corner_value 0.3 0.4 0.2 0.1 0.3 0.3 0.2 0.2
    (fun _ => packObjective 0.3 0.4 0.2 0.1 (packCorner 0.3 0.4 0.2 0.1))
    (fun _ => lifeObjective 0.3 0.3 0.2 0.2 (lifeCorner 0.3 0.3 0.2 0.2))
    (fun _ _ => packCorner_isBoxMinimum 0.3 0.4 0.2 0.1)
    (fun _ _ => lifeCorner_isBoxMinimum 0.3 0.3 0.2 0.2)
  exact ⟨h.1 _ (cornerOf_inBox false false false false), h.2.2.2.2.2⟩

/-- C8 (code bug): on the spec's two-row example with the default weights, the
embedded `optimize` gives both materials the identical score `0` — the
bounded minimization optimizes over free variables and uses each row's data
only as the starting point, so every row receives the objective's box minimum
— and the stable ascending sort therefore leaves Material A first, not
Material B as the spec's end-to-end example requires. -/
theorem optimize_example_ties :
    optimize exampleData 0.3 0.4 0.2 0.1 = [("A", 0), ("B", 0)] := by
  have hpipe : optimize exampleData 0.3 0.4 0.2 0.1 =
      rankAscending
        [("A", packObjective 0.3 0.4 0.2 0.1 (packCorner 0.3 0.4 0.2 0.1)),
         ("B", packObjective 0.3 0.4 0.2 0.1 (packCorner 0.3 0.4 0.2 0.1))] := rfl
  have h1 : ¬((0.3 : ℚ) < 0) := by norm_num
  have h2 : (0 : ℚ) ≤ 0.4 := by norm_num
  have h3 : ¬((0.2 : ℚ) < 0) := by norm_num
  have h4 : (0 : ℚ) ≤ 0.1 := by norm_num
  have hv : packObjective 0.3 0.4 0.2 0.1 (packCorner 0.3 0.4 0.2 0.1) = 0 := by
    norm_num [packObjective, packCorner, h1, h2, h3, h4]
  rw [hpipe, hv]
  exact List.mergeSort_of_sorted (by simp [List.pairwise_cons, ascByScore])

end Walmart
